import Mathlib

/-!
Verification of the managed ordered-collection adapter (`src/src/js_list.cpp`).

The adapter exposes a persisted list to a host property protocol.  The file
embeds the adapter's entry points (`ListGetProperty`, `ListSetProperty`,
`ListPropertyNames`, `ListPush`, `ListPop`, `ListUnshift`, `ListShift`,
`ListSplice`, `ListStaticResults`) as pure Lean functions over an explicit
list state, and proves the specified properties about them.

The underlying collection primitives (`List::get/set/insert/remove/add`,
`verify_in_transaction`), the key parser (`RJSValidatedPositiveIndex`), the
numeric coercion (`RJSValidatedValueToNumber`) and the view constructor
(`RJSResultsCreate`) live outside the provided source; those are modelled
from the specification, as indicated on each definition.
-/

namespace RealmJSList

/-- The host-visible error taxonomy (spec §7). -/
inductive JSError where
  | invalidArgumentCount
  | outOfRange
  | readOnlyProperty
  | writeOutsideTransaction
  | notANumber
  | typeMismatch
deriving DecidableEq

/-- The adapter-observable state of a managed list: the ordered elements of the
underlying collection, and whether a write transaction is active on the store. -/
structure ListState (α : Type) where
  elems : List α
  inTxn : Bool
deriving DecidableEq

namespace ListState

/-- Modelled from the spec: collection primitive `get(index) -> Element`,
which fails with `OutOfRange` when `index >= size()`; reads need no write
transaction (spec §4.2, §5, §6). -/
def getPrim (s : ListState α) (i : Nat) : Except JSError α :=
  match s.elems[i]? with
  | some v => .ok v
  | none => .error .outOfRange

/-- Modelled from the spec: collection primitive `set(index, value)`, which
fails with `OutOfRange` when `index >= size()` and with
`WriteOutsideTransaction` when no write transaction is active (spec §4.2, §6). -/
def setPrim (s : ListState α) (i : Nat) (v : α) : Except JSError (ListState α) :=
  if s.elems.length ≤ i then .error .outOfRange
  else if !s.inTxn then .error .writeOutsideTransaction
  else .ok { s with elems := s.elems.set i v }

/-- Modelled from the spec: collection primitive `remove(index)`, failing with
`OutOfRange` when `index >= size()` and with `WriteOutsideTransaction` when no
write transaction is active (spec §4.4, §6, §7). -/
def removePrim (s : ListState α) (i : Nat) : Except JSError (ListState α) :=
  if s.elems.length ≤ i then .error .outOfRange
  else if !s.inTxn then .error .writeOutsideTransaction
  else .ok { s with elems := s.elems.take i ++ s.elems.drop (i + 1) }

/-- Modelled from the spec: collection primitive `insert(value, index)`, which
accepts insertion positions `0 .. size()` and requires an active write
transaction (spec §4.4, §6). -/
def insertPrim (s : ListState α) (v : α) (i : Nat) : Except JSError (ListState α) :=
  if s.elems.length < i then .error .outOfRange
  else if !s.inTxn then .error .writeOutsideTransaction
  else .ok { s with elems := s.elems.take i ++ v :: s.elems.drop i }

/-- Modelled from the spec: collection primitive `add(value)` (append at the
end), requiring an active write transaction (spec §4.4, §6). -/
def addPrim (s : ListState α) (v : α) : Except JSError (ListState α) :=
  if !s.inTxn then .error .writeOutsideTransaction
  else .ok { s with elems := s.elems ++ [v] }

/-- Modelled from the spec: `verify_in_transaction()`, failing with
`WriteOutsideTransaction` when no write transaction is active (spec §4.4). -/
def verifyInTransaction (s : ListState α) : Except JSError Unit :=
  if s.inTxn then .ok () else .error .writeOutsideTransaction

end ListState

/-! ### Canonical index keys

`RJSValidatedPositiveIndex` is not part of the provided source; the key
classification is modelled from the spec (§4.1): `"length"` is the length
pseudo-property, a key matching `(0|[1-9][0-9]*)` whose value does not
overflow the engine's index type is a canonical index, and anything else
(including an overflowing numeral) is not an index. -/

/-- Value of a decimal digit character; `10` marks a non-digit. -/
def charToDigit (c : Char) : Nat :=
  if c = '0' then 0 else if c = '1' then 1 else if c = '2' then 2
  else if c = '3' then 3 else if c = '4' then 4 else if c = '5' then 5
  else if c = '6' then 6 else if c = '7' then 7 else if c = '8' then 8
  else if c = '9' then 9 else 10

/-- The decimal digit character for a digit value below ten. -/
def digitChar10 (d : Nat) : Char :=
  if d = 0 then '0' else if d = 1 then '1' else if d = 2 then '2'
  else if d = 3 then '3' else if d = 4 then '4' else if d = 5 then '5'
  else if d = 6 then '6' else if d = 7 then '7' else if d = 8 then '8'
  else if d = 9 then '9' else '*'

/-- Whether a character is one of the ten decimal digits. -/
def isDigitCh (c : Char) : Bool :=
  charToDigit c < 10

/-- Modelled from the spec: whether a list of characters matches the canonical
index pattern `(0|[1-9][0-9]*)` — nonempty, all digits, and no leading zero
except for the single-character key `"0"` (spec §4.1). -/
def keyShapeOK : List Char → Bool
  | [] => false
  | c :: rest => isDigitCh c && rest.all isDigitCh && (c != '0' || rest.isEmpty)

/-- Numeric value of a string of decimal digit characters. -/
def keyValue (cs : List Char) : Nat :=
  Nat.ofDigits 10 ((cs.map charToDigit).reverse)

/-- Modelled from the spec: first index value that overflows the engine's
index type (the bound past which a numeral "cannot reference a real slot",
spec §4.1). -/
def indexLimit : Nat := 2 ^ 63

/-- Classification of a property key (spec §4.1). -/
inductive KeyClass where
  | length
  | index : Nat → KeyClass
  | notAnIndex
deriving DecidableEq

/-- Modelled from the spec: `classify(key) -> {Length, Index(n), NotAnIndex}`
(spec §4.1); the source checks the literal key `"length"` first
(`js_list.cpp:58`, `js_list.cpp:84`) and otherwise parses a canonical index. -/
def classifyKey (key : String) : KeyClass :=
  if key = "length" then .length
  else if keyShapeOK key.data = true ∧ keyValue key.data < indexLimit then
    .index (keyValue key.data)
  else .notAnIndex

/-- The canonical decimal string for a natural number: `"0"` for zero,
otherwise its base-ten digits, most significant first. -/
def natToKey (n : Nat) : String :=
  ⟨(if n = 0 then [0] else (Nat.digits 10 n).reverse).map digitChar10⟩

/-! ### Property get/set wrappers (from `js_list.cpp:54-101`) -/

/-- Outcome of a property-style read: the length number, an element value, the
undefined-equivalent (out-of-range read), or the not-handled sentinel (`NULL`
return after an `invalid_argument` parse failure). -/
inductive GetPropResult (α : Type) where
  | lengthVal : Nat → GetPropResult α
  | elem : α → GetPropResult α
  | undefinedVal
  | notHandled
deriving DecidableEq

/-- Outcome of a property-style write: handled (`true`), the not-handled
sentinel (`false` with no exception), or a raised error (`false` with the
exception object set). -/
inductive SetPropResult where
  | handled
  | notHandled
  | err : JSError → SetPropResult
deriving DecidableEq

/-- Embeds `ListGetProperty` (`js_list.cpp:54-78`): `"length"` reads the size;
a canonical index reads the element, out-of-range reads becoming undefined;
any other key yields the not-handled sentinel. -/
def ListGetProperty (s : ListState α) (key : String) : GetPropResult α :=
  match classifyKey key with
  | .length => .lengthVal s.elems.length
  | .notAnIndex => .notHandled
  | .index i =>
    match s.getPrim i with
    | .ok v => .elem v
    | .error _ => .undefinedVal

/-- Embeds `ListSetProperty` (`js_list.cpp:80-101`): writing `"length"` raises
a read-only error; a canonical index delegates to the collection `set`; any
other key yields the not-handled sentinel.  The state is returned unchanged on
every non-handled path. -/
def ListSetProperty (s : ListState α) (key : String) (v : α) :
    SetPropResult × ListState α :=
  match classifyKey key with
  | .length => (.err .readOnlyProperty, s)
  | .notAnIndex => (.notHandled, s)
  | .index i =>
    match s.setPrim i v with
    | .ok s' => (.handled, s')
    | .error e => (.err e, s)

/-- Embeds `ListPropertyNames` (`js_list.cpp:103-114`): the enumerated keys are
the unpadded decimal strings of `0 .. size()-1`, in that order, recomputed from
the current size. -/
def ListPropertyNames (s : ListState α) : List String :=
  (List.range s.elems.length).map natToKey

/-! ### Method-style entry points (from `js_list.cpp:116-235`)

Each method returns the pair of its host-visible outcome (an `Except`, where
`.error` means the exception object was set) and the list state after the
call.  When a primitive fails, the C++ exception propagates out of the method
immediately, so the state reached at that point is the post-state. -/

open ListState

/-- Appends each value in turn via the collection `add` primitive, stopping at
the first failure (the loop body of `ListPush`, `js_list.cpp:121-123`). -/
def addAll : ListState α → List α → Except JSError Unit × ListState α
  | s, [] => (.ok (), s)
  | s, v :: rest =>
    match s.addPrim v with
    | .ok s' => addAll s' rest
    | .error e => (.error e, s)

/-- Embeds `ListPush` (`js_list.cpp:116-129`): requires at least one argument,
appends each argument in input order, and returns the new size. -/
def ListPush (s : ListState α) (args : List α) : Except JSError Nat × ListState α :=
  if args.length < 1 then (.error .invalidArgumentCount, s)
  else
    match addAll s args with
    | (.ok _, s') => (.ok s'.elems.length, s')
    | (.error e, s') => (.error e, s')

/-- Embeds `ListPop` (`js_list.cpp:131-151`): requires zero arguments; on an
empty list it verifies the transaction precondition and returns undefined
(`none`); otherwise it reads the element at `size - 1` and then removes that
position. -/
def ListPop (s : ListState α) (argc : Nat) : Except JSError (Option α) × ListState α :=
  if argc ≠ 0 then (.error .invalidArgumentCount, s)
  else if s.elems.length = 0 then
    match s.verifyInTransaction with
    | .ok _ => (.ok none, s)
    | .error e => (.error e, s)
  else
    match s.getPrim (s.elems.length - 1) with
    | .error e => (.error e, s)
    | .ok v =>
      match s.removePrim (s.elems.length - 1) with
      | .error e => (.error e, s)
      | .ok s' => (.ok (some v), s')

/-- Inserts the values at consecutive positions `i, i+1, ...` via the
collection `insert` primitive (the loop body of `ListUnshift`,
`js_list.cpp:159-161`). -/
def insertSeq : ListState α → List α → Nat → Except JSError Unit × ListState α
  | s, [], _ => (.ok (), s)
  | s, v :: rest, i =>
    match s.insertPrim v i with
    | .ok s' => insertSeq s' rest (i + 1)
    | .error e => (.error e, s)

/-- Embeds `ListUnshift` (`js_list.cpp:154-167`): requires at least one
argument, inserts argument `i` at position `i` for each `i`, and returns the
new size. -/
def ListUnshift (s : ListState α) (args : List α) : Except JSError Nat × ListState α :=
  if args.length < 1 then (.error .invalidArgumentCount, s)
  else
    match insertSeq s args 0 with
    | (.ok _, s') => (.ok s'.elems.length, s')
    | (.error e, s') => (.error e, s')

/-- Embeds `ListShift` (`js_list.cpp:169-186`): requires zero arguments; on an
empty list it verifies the transaction precondition and returns undefined
(`none`); otherwise it reads the element at position `0` and then removes that
position. -/
def ListShift (s : ListState α) (argc : Nat) : Except JSError (Option α) × ListState α :=
  if argc ≠ 0 then (.error .invalidArgumentCount, s)
  else if s.elems.length = 0 then
    match s.verifyInTransaction with
    | .ok _ => (.ok none, s)
    | .error e => (.error e, s)
  else
    match s.getPrim 0 with
    | .error e => (.error e, s)
    | .ok v =>
      match s.removePrim 0 with
      | .error e => (.error e, s)
      | .ok s' => (.ok (some v), s')

/-- A host-level argument as seen by `ListSplice`: either a numeric value or
an element value. -/
inductive JSArg (α : Type) where
  | num : Int → JSArg α
  | elem : α → JSArg α
deriving DecidableEq

/-- Modelled from the spec: numeric coercion of a host argument
(`RJSValidatedValueToNumber`), failing on a non-numeric value. -/
def toNumber : JSArg α → Except JSError Int
  | .num n => .ok n
  | .elem _ => .error .notANumber

/-- Modelled from the spec: marshaling of a host argument to an element value,
failing with a type mismatch on a numeric value for an object-typed slot. -/
def argToElem : JSArg α → Except JSError α
  | .elem v => .ok v
  | .num _ => .error .typeMismatch

/-- Reads and removes the element at position `i`, `k` times in a row,
collecting the removed elements in removal order (the removal loop of
`ListSplice`, `js_list.cpp:210-213`). -/
def removeSeq : ListState α → Nat → Nat → Except JSError (List α) × ListState α
  | s, _, 0 => (.ok [], s)
  | s, i, k + 1 =>
    match s.getPrim i with
    | .error e => (.error e, s)
    | .ok v =>
      match s.removePrim i with
      | .error e => (.error e, s)
      | .ok s' =>
        match removeSeq s' i k with
        | (.ok vs, s'') => (.ok (v :: vs), s'')
        | (.error e, s'') => (.error e, s'')

/-- Marshals and inserts the arguments at consecutive positions `i, i+1, ...`
(the insertion loop of `ListSplice`, `js_list.cpp:214-216`). -/
def insertArgSeq : ListState α → List (JSArg α) → Nat → Except JSError Unit × ListState α
  | s, [], _ => (.ok (), s)
  | s, a :: rest, i =>
    match argToElem a with
    | .error e => (.error e, s)
    | .ok v =>
      match s.insertPrim v i with
      | .ok s' => insertArgSeq s' rest (i + 1)
      | .error e => (.error e, s)

/-- Embeds `ListSplice` (`js_list.cpp:188-222`): requires at least one
argument; the start position is `min(numeric(arg0), size)`, renormalized as
`max(size + start, 0)` when negative; the delete count is `size - start` with
fewer than two arguments and otherwise `numeric(arg1)` clamped to
`[0, size - start]`; that many elements are removed one at a time at the start
position, then the arguments from index 2 onward are inserted at consecutive
positions from the start position; the removed elements are returned. -/
def ListSplice (s : ListState α) (args : List (JSArg α)) :
    Except JSError (List α) × ListState α :=
  match args with
  | [] => (.error .invalidArgumentCount, s)
  | a0 :: rest =>
    let size : Int := s.elems.length
    match toNumber a0 with
    | .error e => (.error e, s)
    | .ok n0 =>
      let i0 : Int := min n0 size
      let idx : Int := if i0 < 0 then max (size + i0) 0 else i0
      let removeCountE : Except JSError Int :=
        match rest with
        | [] => .ok (size - idx)
        | a1 :: _ =>
          match toNumber a1 with
          | .error e => .error e
          | .ok n1 => .ok (min (max n1 0) (size - idx))
      match removeCountE with
      | .error e => (.error e, s)
      | .ok rc =>
        match removeSeq s idx.toNat rc.toNat with
        | (.error e, s') => (.error e, s')
        | (.ok removed, s') =>
          match insertArgSeq s' (rest.drop 1) idx.toNat with
          | (.error e, s'') => (.error e, s'')
          | (.ok _, s'') => (.ok removed, s'')

/-! ### View derivation (from `js_list.cpp:225-235`) -/

/-- A derived view handle: a static view captures the query results at
creation time, a live view tracks the current store contents. -/
inductive ViewHandle (α : Type) where
  | staticView : List α → ViewHandle α
  | liveView
deriving DecidableEq

/-- The membership of a view when the store's current contents are `cur`. -/
def evalView : ViewHandle α → List α → List α
  | .staticView l, _ => l
  | .liveView, cur => cur

/-- Modelled from the spec: `RJSResultsCreate(ctx, realm, schema, query, live)`
(the view-system constructor `createView`, spec §6); with `live = false` the
view's membership is fixed to the query's results at creation time. -/
def RJSResultsCreate (current : List α) (live : Bool) : ViewHandle α :=
  if live then .liveView else .staticView current

/-- Embeds `ListStaticResults` (`js_list.cpp:225-235`, bound as `snapshot`):
requires zero arguments and builds a view from the list's current query with
`live = false`. -/
def ListStaticResults (s : ListState α) (argc : Nat) :
    Except JSError (ViewHandle α) × ListState α :=
  if argc ≠ 0 then (.error .invalidArgumentCount, s)
  else (.ok (RJSResultsCreate s.elems false), s)

/-! ### Helper lemmas: decimal digit characters -/

theorem charToDigit_digitChar10 (d : Nat) (h : d < 10) :
    charToDigit (digitChar10 d) = d := by
  interval_cases d <;> decide

theorem isDigitCh_digitChar10 (d : Nat) (h : d < 10) :
    isDigitCh (digitChar10 d) = true := by
  interval_cases d <;> decide

theorem digitChar10_ne_zero_char (d : Nat) (h : d < 10) (hd : d ≠ 0) :
    digitChar10 d ≠ '0' := by
  interval_cases d <;> simp_all <;> decide

theorem digitChar10_charToDigit (c : Char) (h : charToDigit c < 10) :
    digitChar10 (charToDigit c) = c := by
  by_cases h0 : c = '0'; · subst h0; decide
  by_cases h1 : c = '1'; · subst h1; decide
  by_cases h2 : c = '2'; · subst h2; decide
  by_cases h3 : c = '3'; · subst h3; decide
  by_cases h4 : c = '4'; · subst h4; decide
  by_cases h5 : c = '5'; · subst h5; decide
  by_cases h6 : c = '6'; · subst h6; decide
  by_cases h7 : c = '7'; · subst h7; decide
  by_cases h8 : c = '8'; · subst h8; decide
  by_cases h9 : c = '9'; · subst h9; decide
  exfalso
  have h10 : charToDigit c = 10 := by
    unfold charToDigit
    rw [if_neg h0, if_neg h1, if_neg h2, if_neg h3, if_neg h4, if_neg h5,
      if_neg h6, if_neg h7, if_neg h8, if_neg h9]
  omega

theorem charToDigit_ne_zero (c : Char) (hd : isDigitCh c = true) (hc : c ≠ '0') :
    charToDigit c ≠ 0 := by
  intro h0
  have := digitChar10_charToDigit c (by simpa [isDigitCh] using hd)
  rw [h0] at this
  exact hc this.symm

theorem isDigitCh_lt (c : Char) (hd : isDigitCh c = true) : charToDigit c < 10 := by
  simpa [isDigitCh] using hd

/-! ### Helper lemmas: canonical decimal keys -/

theorem natToKey_data (n : Nat) :
    (natToKey n).data = (if n = 0 then [0] else (Nat.digits 10 n).reverse).map digitChar10 :=
  rfl

theorem keyValue_natToKey (n : Nat) : keyValue (natToKey n).data = n := by
  rw [natToKey_data]
  by_cases h : n = 0
  · subst h; rfl
  · simp only [if_neg h]
    unfold keyValue
    rw [List.map_map]
    have hmap : ((Nat.digits 10 n).reverse).map (charToDigit ∘ digitChar10)
        = (Nat.digits 10 n).reverse := by
      have hpt : ∀ d ∈ (Nat.digits 10 n).reverse, (charToDigit ∘ digitChar10) d = id d := by
        intro d hdm
        have hd10 : d < 10 :=
          Nat.digits_lt_base (by norm_num) (List.mem_reverse.mp hdm)
        simp [charToDigit_digitChar10 d hd10]
      rw [List.map_congr_left hpt, List.map_id]
    rw [hmap, List.reverse_reverse, Nat.ofDigits_digits]

theorem keyShapeOK_natToKey (n : Nat) : keyShapeOK (natToKey n).data = true := by
  rw [natToKey_data]
  by_cases h : n = 0
  · subst h; rfl
  · simp only [if_neg h]
    have hnil : Nat.digits 10 n ≠ [] := Nat.digits_ne_nil_iff_ne_zero.mpr h
    have hne : (Nat.digits 10 n).reverse ≠ [] := by simpa using hnil
    obtain ⟨d, ds, hds⟩ := List.exists_cons_of_ne_nil hne
    have hdmem : d ∈ Nat.digits 10 n := by
      rw [← List.mem_reverse, hds]; exact List.mem_cons_self d ds
    have hd10 : d < 10 := Nat.digits_lt_base (by norm_num) hdmem
    have hdlast : d ≠ 0 := by
      have hsome : (Nat.digits 10 n).getLast? = some d := by
        rw [← List.head?_reverse, hds]; rfl
      rw [List.getLast?_eq_getLast _ hnil, Option.some_inj] at hsome
      rw [← hsome]
      exact Nat.getLast_digit_ne_zero 10 h
    rw [hds]
    simp only [List.map_cons, keyShapeOK, Bool.and_eq_true, Bool.or_eq_true]
    refine ⟨⟨isDigitCh_digitChar10 d hd10, ?_⟩, Or.inl ?_⟩
    · rw [List.all_eq_true]
      intro c hc
      obtain ⟨e, hem, rfl⟩ := List.mem_map.mp hc
      have he10 : e < 10 := Nat.digits_lt_base (by norm_num)
        (List.mem_reverse.mp (by rw [hds]; exact List.mem_cons_of_mem d hem))
      exact isDigitCh_digitChar10 e he10
    · simpa using digitChar10_ne_zero_char d hd10 hdlast

theorem natToKey_keyValue (cs : List Char) (h : keyShapeOK cs = true) :
    natToKey (keyValue cs) = ⟨cs⟩ := by
  match cs with
  | [] => exact absurd h (by simp [keyShapeOK])
  | c :: rest =>
    simp only [keyShapeOK, Bool.and_eq_true, Bool.or_eq_true, bne_iff_ne,
      List.isEmpty_iff] at h
    obtain ⟨⟨hc, hrest⟩, hzero⟩ := h
    by_cases hc0 : c = '0'
    · have hre : rest = [] := by
        rcases hzero with hne | he
        · exact absurd hc0 hne
        · exact he
      subst hc0; subst hre
      rfl
    · set L : List Nat := ((c :: rest).map charToDigit).reverse with hL
      have hmem10 : ∀ e ∈ c :: rest, charToDigit e < 10 := by
        intro e he
        rcases List.mem_cons.mp he with rfl | he'
        · exact isDigitCh_lt e hc
        · exact isDigitCh_lt e (List.all_eq_true.mp hrest e he')
      have hlt : ∀ d ∈ L, d < 10 := by
        intro d hd
        rw [hL, List.mem_reverse] at hd
        obtain ⟨e, hem, rfl⟩ := List.mem_map.mp hd
        exact hmem10 e hem
      have hLne : L ≠ [] := by simp [hL]
      have hLlast : L.getLast? = some (charToDigit c) := by
        rw [← List.head?_reverse, hL, List.reverse_reverse]; rfl
      have hlast : ∀ h' : L ≠ [], L.getLast h' ≠ 0 := by
        intro h'
        rw [List.getLast?_eq_getLast _ h', Option.some_inj] at hLlast
        rw [hLlast]
        exact charToDigit_ne_zero c hc hc0
      have hkv : keyValue (c :: rest) = Nat.ofDigits 10 L := by
        unfold keyValue
        rw [hL]
      have hdig : Nat.digits 10 (keyValue (c :: rest)) = L := by
        rw [hkv]
        exact Nat.digits_ofDigits 10 (by norm_num) L hlt hlast
      have hv0 : keyValue (c :: rest) ≠ 0 := by
        intro h0
        rw [h0, Nat.digits_zero] at hdig
        exact hLne hdig.symm
      show natToKey (keyValue (c :: rest)) = ⟨c :: rest⟩
      unfold natToKey
      rw [if_neg hv0, hdig, hL, List.reverse_reverse, List.map_map]
      have hback : (c :: rest).map (digitChar10 ∘ charToDigit) = c :: rest := by
        have hpt : ∀ e ∈ c :: rest, (digitChar10 ∘ charToDigit) e = id e := by
          intro e he
          simp [digitChar10_charToDigit e (hmem10 e he)]
        rw [List.map_congr_left hpt, List.map_id]
      rw [hback]

theorem keyShapeOK_length_false : keyShapeOK ("length").data = false := by
  decide

theorem natToKey_ne_length (n : Nat) : natToKey n ≠ "length" := by
  intro hkey
  have hsh := keyShapeOK_natToKey n
  rw [hkey, keyShapeOK_length_false] at hsh
  exact Bool.false_ne_true hsh

theorem classifyKey_eq_index_iff (key : String) (n : Nat) :
    classifyKey key = .index n ↔ key = natToKey n ∧ n < indexLimit := by
  constructor
  · intro h
    unfold classifyKey at h
    by_cases h1 : key = "length"
    · rw [if_pos h1] at h; exact absurd h (by simp)
    rw [if_neg h1] at h
    by_cases h2 : keyShapeOK key.data = true ∧ keyValue key.data < indexLimit
    · rw [if_pos h2] at h
      obtain ⟨hshape, hlim⟩ := h2
      have hn : keyValue key.data = n := by injection h
      subst hn
      exact ⟨(natToKey_keyValue key.data hshape).symm, hlim⟩
    · rw [if_neg h2] at h; exact absurd h (by simp)
  · rintro ⟨rfl, hlim⟩
    unfold classifyKey
    rw [if_neg (natToKey_ne_length n),
      if_pos ⟨keyShapeOK_natToKey n, by rw [keyValue_natToKey]; exact hlim⟩,
      keyValue_natToKey]

theorem classifyKey_natToKey (n : Nat) (h : n < indexLimit) :
    classifyKey (natToKey n) = .index n :=
  (classifyKey_eq_index_iff (natToKey n) n).mpr ⟨rfl, h⟩

theorem classifyKey_natToKey_overflow (n : Nat) (h : indexLimit ≤ n) :
    classifyKey (natToKey n) = .notAnIndex := by
  unfold classifyKey
  have hcond : ¬(keyShapeOK (natToKey n).data = true ∧ keyValue (natToKey n).data < indexLimit) := by
    rintro ⟨-, hlt⟩
    rw [keyValue_natToKey] at hlt
    omega
  rw [if_neg (natToKey_ne_length n), if_neg hcond]

/-! ### Helper lemmas: the mutation loops -/

theorem addAll_ok (vs l : List α) :
    addAll ⟨l, true⟩ vs = (.ok (), ⟨l ++ vs, true⟩) := by
  induction vs generalizing l with
  | nil => simp [addAll]
  | cons v rest ih =>
    simp only [addAll, ListState.addPrim, Bool.not_true, Bool.false_eq_true,
      if_false, ih, List.append_assoc, List.singleton_append]

theorem insertSeq_ok (vs front back : List α) :
    insertSeq ⟨front ++ back, true⟩ vs front.length = (.ok (), ⟨front ++ vs ++ back, true⟩) := by
  induction vs generalizing front with
  | nil => simp [insertSeq]
  | cons v rest ih =>
    have hlen : ¬ (front ++ back).length < front.length := by
      simp [List.length_append]
    simp only [insertSeq, ListState.insertPrim, if_neg hlen, Bool.not_true,
      Bool.false_eq_true, if_false, List.take_left, List.drop_left]
    have hstep := ih (front ++ [v])
    rw [List.length_append, List.length_cons, List.length_nil] at hstep
    simp only [List.append_assoc, List.singleton_append] at hstep
    rw [hstep]
    simp

theorem insertArgSeq_map_elem (vs : List α) (s : ListState α) (i : Nat) :
    insertArgSeq s (vs.map JSArg.elem) i = insertSeq s vs i := by
  induction vs generalizing s i with
  | nil => rfl
  | cons v rest ih =>
    simp only [List.map_cons, insertArgSeq, argToElem, insertSeq]
    cases s.insertPrim v i with
    | ok s' => exact ih s' (i + 1)
    | error e => rfl

theorem removeSeq_ok (k : Nat) (l : List α) (i : Nat) (h : i + k ≤ l.length) :
    removeSeq ⟨l, true⟩ i k
      = (.ok ((l.drop i).take k), ⟨l.take i ++ l.drop (i + k), true⟩) := by
  induction k generalizing l with
  | zero => simp [removeSeq]
  | succ k ih =>
    have hil : i < l.length := by omega
    have hget : l[i]? = some l[i] := List.getElem?_eq_getElem hil
    have hlen : ¬ l.length ≤ i := by omega
    simp only [removeSeq, ListState.getPrim, hget, ListState.removePrim, if_neg hlen,
      Bool.not_true, Bool.false_eq_true, if_false]
    set l' : List α := l.take i ++ l.drop (i + 1) with hl'
    have hfront : (l.take i).length = i := by
      rw [List.length_take]; omega
    have hl'len : l'.length = l.length - 1 := by
      rw [hl', List.length_append, List.length_take, List.length_drop]; omega
    have hrec := ih l' (by omega)
    rw [hrec]
    have hdrop : l'.drop i = l.drop (i + 1) := by
      rw [hl', List.drop_left' hfront]
    have htake : l'.take i = l.take i := by
      rw [hl', List.take_left' hfront]
    have hdrop2 : l'.drop (i + k) = l.drop (i + (k + 1)) := by
      rw [← List.drop_drop, hdrop, List.drop_drop]
      congr 1
      omega
    have hcons : l.drop i = l[i] :: l.drop (i + 1) := List.drop_eq_getElem_cons hil
    rw [hdrop, htake, hdrop2, hcons]
    rfl

/-! ### Helper lemmas: pop and shift -/

theorem ListPop_arity (s : ListState α) (k : Nat) :
    ListPop s (k + 1) = (.error .invalidArgumentCount, s) := by
  unfold ListPop
  rw [if_pos (Nat.succ_ne_zero k)]

theorem ListShift_arity (s : ListState α) (k : Nat) :
    ListShift s (k + 1) = (.error .invalidArgumentCount, s) := by
  unfold ListShift
  rw [if_pos (Nat.succ_ne_zero k)]

theorem ListPop_empty (t : Bool) :
    ListPop (⟨[], t⟩ : ListState α) 0
      = (if t then (.ok none, ⟨[], t⟩) else (.error .writeOutsideTransaction, ⟨[], t⟩)) := by
  cases t <;> rfl

theorem ListShift_empty (t : Bool) :
    ListShift (⟨[], t⟩ : ListState α) 0
      = (if t then (.ok none, ⟨[], t⟩) else (.error .writeOutsideTransaction, ⟨[], t⟩)) := by
  cases t <;> rfl

theorem ListPop_append (P : List α) (w : α) :
    ListPop ⟨P ++ [w], true⟩ 0 = (.ok (some w), ⟨P, true⟩) := by
  have hlen : (P ++ [w]).length = P.length + 1 := by simp
  have hne : ¬ (P ++ [w]).length = 0 := by omega
  have hi : (P ++ [w]).length - 1 = P.length := by omega
  have hget : (P ++ [w])[P.length]? = some w := List.getElem?_concat_length P w
  have hle : ¬ (P ++ [w]).length ≤ P.length := by omega
  unfold ListPop ListState.getPrim ListState.removePrim
  rw [if_neg (by simp), if_neg hne, hi, hget]
  simp only [Bool.not_true, Bool.false_eq_true, if_false, if_neg hle]
  have htake : (P ++ [w]).take P.length = P := List.take_left P [w]
  have hdrop : (P ++ [w]).drop (P.length + 1) = [] := by
    have : (P ++ [w]).drop (P.length + 1) = [w].drop 1 := by
      have h1 : P.length + 1 = P.length + 1 := rfl
      rw [show P.length + 1 = P.length + 1 from rfl, List.drop_append]
    rw [this]
    rfl
  rw [htake, hdrop, List.append_nil]

theorem ListPop_nonempty (l : List α) (h : l ≠ []) :
    ListPop ⟨l, true⟩ 0 = (.ok (some (l.getLast h)), ⟨l.dropLast, true⟩) := by
  conv_lhs => rw [← List.dropLast_append_getLast h]
  rw [ListPop_append]

theorem ListShift_cons (v : α) (rest : List α) :
    ListShift ⟨v :: rest, true⟩ 0 = (.ok (some v), ⟨rest, true⟩) := by
  unfold ListShift ListState.getPrim ListState.removePrim
  rw [if_neg (by simp), if_neg (by simp)]
  simp

theorem ListPop_frame (s : ListState α) (argc : Nat)
    (h : (ListPop s argc).1.isOk = false) : (ListPop s argc).2 = s := by
  unfold ListPop at h ⊢
  split_ifs at h ⊢
  · rfl
  · rcases hv : s.verifyInTransaction with e | u
    · rfl
    · simp [hv, Except.isOk, Except.toBool] at h
  · rcases hg : s.getPrim (s.elems.length - 1) with e | v
    · rfl
    · rcases hr : s.removePrim (s.elems.length - 1) with e | s'
      · rfl
      · simp [hg, hr, Except.isOk, Except.toBool] at h

theorem ListShift_frame (s : ListState α) (argc : Nat)
    (h : (ListShift s argc).1.isOk = false) : (ListShift s argc).2 = s := by
  unfold ListShift at h ⊢
  split_ifs at h ⊢
  · rfl
  · rcases hv : s.verifyInTransaction with e | u
    · rfl
    · simp [hv, Except.isOk, Except.toBool] at h
  · rcases hg : s.getPrim 0 with e | v
    · rfl
    · rcases hr : s.removePrim 0 with e | s'
      · rfl
      · simp [hg, hr, Except.isOk, Except.toBool] at h

/-! ### Helper lemmas: splice

The two definitions below restate, in the specification's words (§4.4 splice
steps 1-2), the start position and delete count; the claim theorems compare
`ListSplice` against them. -/

/-- The spec's start position: `min(numeric(arg0), size)`, renormalized as
`max(size + start, 0)` when negative. -/
def specSpliceStart (arg0 : Int) (size : Nat) : Nat :=
  (if min arg0 (size : Int) < 0 then max ((size : Int) + min arg0 (size : Int)) 0
   else min arg0 (size : Int)).toNat

/-- The spec's delete count with two or more arguments:
`clamp(numeric(arg1), 0, size - start)`. -/
def specSpliceDelete (arg0 arg1 : Int) (size : Nat) : Nat :=
  (min (max arg1 0) ((size : Int) - specSpliceStart arg0 size)).toNat

theorem specSpliceStart_le (a0 : Int) (n : Nat) : specSpliceStart a0 n ≤ n := by
  unfold specSpliceStart
  simp only [min_def, max_def]
  split_ifs <;> omega

theorem specSpliceStart_cast (a0 : Int) (n : Nat) :
    ((specSpliceStart a0 n : Nat) : Int)
      = (if min a0 (n : Int) < 0 then max ((n : Int) + min a0 (n : Int)) 0
         else min a0 (n : Int)) := by
  unfold specSpliceStart
  simp only [min_def, max_def]
  split_ifs <;> omega

theorem specSpliceDelete_le (a0 a1 : Int) (n : Nat) :
    specSpliceStart a0 n + specSpliceDelete a0 a1 n ≤ n := by
  have h := specSpliceStart_le a0 n
  unfold specSpliceDelete
  simp only [min_def, max_def]
  split_ifs <;> omega

theorem specSpliceDelete_cast (a0 a1 : Int) (n : Nat) :
    ((specSpliceDelete a0 a1 n : Nat) : Int)
      = min (max a1 0) ((n : Int) - specSpliceStart a0 n) := by
  have h := specSpliceStart_le a0 n
  unfold specSpliceDelete
  simp only [min_def, max_def]
  split_ifs <;> omega

theorem insertSeq_at_take (l vs back : List α) (i : Nat) (h : i ≤ l.length) :
    insertSeq ⟨l.take i ++ back, true⟩ vs i = (.ok (), ⟨l.take i ++ vs ++ back, true⟩) := by
  obtain ⟨front, hfr, hlen⟩ : ∃ front, front = l.take i ∧ front.length = i :=
    ⟨l.take i, rfl, by simp [h]⟩
  rw [← hfr, ← hlen, insertSeq_ok]

theorem ListSplice_twoArg (P : List α) (a0 a1 : Int) (items : List α) :
    ListSplice ⟨P, true⟩ (JSArg.num a0 :: JSArg.num a1 :: items.map JSArg.elem)
      = (.ok ((P.drop (specSpliceStart a0 P.length)).take (specSpliceDelete a0 a1 P.length)),
         ⟨P.take (specSpliceStart a0 P.length) ++ items
            ++ P.drop (specSpliceStart a0 P.length + specSpliceDelete a0 a1 P.length),
          true⟩) := by
  have hstle : specSpliceStart a0 P.length ≤ P.length := specSpliceStart_le a0 P.length
  have hsum : specSpliceStart a0 P.length + specSpliceDelete a0 a1 P.length ≤ P.length :=
    specSpliceDelete_le a0 a1 P.length
  simp only [ListSplice, toNumber]
  rw [← specSpliceStart_cast a0 P.length, ← specSpliceDelete_cast a0 a1 P.length]
  simp only [Int.toNat_natCast, List.drop_succ_cons, List.drop_zero]
  rw [removeSeq_ok _ _ _ hsum]
  dsimp only
  rw [insertArgSeq_map_elem, insertSeq_at_take _ _ _ _ hstle]

theorem ListSplice_oneArg (P : List α) (a0 : Int) :
    ListSplice ⟨P, true⟩ [JSArg.num a0]
      = (.ok (P.drop (specSpliceStart a0 P.length)),
         ⟨P.take (specSpliceStart a0 P.length), true⟩) := by
  have hstle : specSpliceStart a0 P.length ≤ P.length := specSpliceStart_le a0 P.length
  simp only [ListSplice, toNumber]
  rw [← specSpliceStart_cast a0 P.length]
  rw [show (P.length : Int) - (specSpliceStart a0 P.length : Int)
      = ((P.length - specSpliceStart a0 P.length : Nat) : Int) by
    exact (Int.ofNat_sub hstle).symm]
  simp only [Int.toNat_natCast, List.drop_succ_cons, List.drop_zero]
  rw [removeSeq_ok _ _ _ (by omega)]
  dsimp only
  have htake : (P.drop (specSpliceStart a0 P.length)).take
      (P.length - specSpliceStart a0 P.length) = P.drop (specSpliceStart a0 P.length) := by
    rw [show P.length - specSpliceStart a0 P.length
        = (P.drop (specSpliceStart a0 P.length)).length by simp, List.take_length]
  have hdrop : P.drop (specSpliceStart a0 P.length
      + (P.length - specSpliceStart a0 P.length)) = [] := by
    rw [show specSpliceStart a0 P.length + (P.length - specSpliceStart a0 P.length)
        = P.length by omega, List.drop_length]
  rw [htake, hdrop, List.append_nil]
  rfl

/-! ### Claim theorems -/

/-- C1: for every `splice` call with at least one argument the start position is
`min(numeric(arg0), size)`, renormalized as `max(size + start, 0)` when
negative; the delete count is `size - start` with fewer than two arguments and
otherwise `clamp(numeric(arg1), 0, size - start)`; exactly that many elements
are removed one at a time at the start position, collected in removal order
into the returned array; the arguments from index 2 onward are then inserted in
order at the start position; a zero-argument call fails with
`InvalidArgumentCount`; in particular `splice(1, 2, x, y)` on `[a, b, c, d, e]`
returns `[b, c]` and leaves `[a, x, y, d, e]`. -/
theorem splice_spec (s : ListState α) (P : List α) (a0 a1 : Int) (items : List α)
    (a b c d e x y : α) :
    ListSplice s [] = (.error .invalidArgumentCount, s)
    ∧ ListSplice ⟨P, true⟩ (JSArg.num a0 :: JSArg.num a1 :: items.map JSArg.elem)
        = (.ok ((P.drop (specSpliceStart a0 P.length)).take (specSpliceDelete a0 a1 P.length)),
           ⟨P.take (specSpliceStart a0 P.length) ++ items
              ++ P.drop (specSpliceStart a0 P.length + specSpliceDelete a0 a1 P.length), true⟩)
    ∧ ListSplice ⟨P, true⟩ [JSArg.num a0]
        = (.ok (P.drop (specSpliceStart a0 P.length)),
           ⟨P.take (specSpliceStart a0 P.length), true⟩)
    ∧ ListSplice ⟨[a, b, c, d, e], true⟩ [.num 1, .num 2, .elem x, .elem y]
        = (.ok [b, c], ⟨[a, x, y, d, e], true⟩) := by
  refine ⟨rfl, ListSplice_twoArg P a0 a1 items, ListSplice_oneArg P a0, ?_⟩
  have h := ListSplice_twoArg [a, b, c, d, e] 1 2 [x, y]
  have hlen : ([a, b, c, d, e] : List α).length = 5 := rfl
  rw [hlen, show specSpliceStart 1 5 = 1 by decide,
    show specSpliceDelete 1 2 5 = 2 by decide] at h
  simpa using h

/-- C2: `"length"` is classified as the length pseudo-property; a key is
classified as `Index(n)` exactly when it is the canonical decimal string of `n`
(pattern `(0|[1-9][0-9]*)`) and `n` does not overflow the index type, an
overflowing numeral being `NotAnIndex`; and every key classified `NotAnIndex`
yields the not-handled sentinel on property-style read (`NULL`) and write
(`false`), with no error raised and the state unchanged. -/
theorem key_classification_spec (α : Type) :
    classifyKey "length" = KeyClass.length
    ∧ (∀ (key : String) (n : Nat),
        classifyKey key = .index n ↔ key = natToKey n ∧ n < indexLimit)
    ∧ (∀ n : Nat, indexLimit ≤ n → classifyKey (natToKey n) = .notAnIndex)
    ∧ (∀ (s : ListState α) (key : String) (v : α), classifyKey key = .notAnIndex →
        ListGetProperty s key = .notHandled ∧ ListSetProperty s key v = (.notHandled, s)) := by
  refine ⟨rfl, classifyKey_eq_index_iff, classifyKey_natToKey_overflow, ?_⟩
  intro s key v h
  constructor
  · unfold ListGetProperty
    rw [h]
  · unfold ListSetProperty
    rw [h]

/-- Witness for C2 at the overflow boundary `2 ^ 63` and at the key `"foo"`. -/
theorem key_classification_spec_witness :
    indexLimit ≤ 2 ^ 63
    ∧ classifyKey (natToKey (2 ^ 63)) = KeyClass.notAnIndex
    ∧ classifyKey "foo" = KeyClass.notAnIndex
    ∧ ListGetProperty (⟨[], true⟩ : ListState Nat) "foo" = .notHandled
    ∧ ListSetProperty (⟨[], true⟩ : ListState Nat) "foo" 0 = (.notHandled, ⟨[], true⟩) :=
  ⟨le_refl _,
   (key_classification_spec Nat).2.2.1 (2 ^ 63) (le_refl _),
   by decide,
   ((key_classification_spec Nat).2.2.2 ⟨[], true⟩ "foo" 0 (by decide)).1,
   ((key_classification_spec Nat).2.2.2 ⟨[], true⟩ "foo" 0 (by decide)).2⟩

/-- C3: reading a canonical index at or past the current size gives the
undefined-equivalent result with no error, while writing such an index raises
the out-of-range error and leaves the state unchanged. -/
theorem out_of_range_spec (s : ListState α) (i : Nat) (v : α)
    (hlim : i < indexLimit) (hsz : s.elems.length ≤ i) :
    ListGetProperty s (natToKey i) = .undefinedVal
    ∧ ListSetProperty s (natToKey i) v = (.err .outOfRange, s) := by
  have hcl := classifyKey_natToKey i hlim
  constructor
  · simp only [ListGetProperty, hcl, ListState.getPrim, List.getElem?_eq_none hsz]
  · simp only [ListSetProperty, hcl, ListState.setPrim, if_pos hsz]

/-- Witness for C3 on the empty list at index `0`. -/
theorem out_of_range_spec_witness :
    (0 : Nat) < indexLimit
    ∧ (⟨[], true⟩ : ListState Nat).elems.length ≤ 0
    ∧ ListGetProperty (⟨[], true⟩ : ListState Nat) (natToKey 0) = .undefinedVal
    ∧ ListSetProperty (⟨[], true⟩ : ListState Nat) (natToKey 0) 7
        = (.err .outOfRange, ⟨[], true⟩) :=
  ⟨by decide, by decide,
   (out_of_range_spec ⟨[], true⟩ 0 7 (by decide) (by decide)).1,
   (out_of_range_spec ⟨[], true⟩ 0 7 (by decide) (by decide)).2⟩

/-- C4: `pop` and `shift` require zero arguments, failing with
`InvalidArgumentCount` otherwise; on an empty list they verify the
write-transaction precondition — failing with `WriteOutsideTransaction` when no
write transaction is active — and return the undefined result; on a non-empty
list `pop` removes and returns the element at `size - 1` and `shift` the
element at `0`, the size decreasing by exactly one. -/
theorem pop_shift_spec (s : ListState α) (k : Nat) (P : List α) (w v : α) (rest : List α) :
    ListPop s (k + 1) = (.error .invalidArgumentCount, s)
    ∧ ListShift s (k + 1) = (.error .invalidArgumentCount, s)
    ∧ ListPop (⟨[], false⟩ : ListState α) 0 = (.error .writeOutsideTransaction, ⟨[], false⟩)
    ∧ ListShift (⟨[], false⟩ : ListState α) 0 = (.error .writeOutsideTransaction, ⟨[], false⟩)
    ∧ ListPop (⟨[], true⟩ : ListState α) 0 = (.ok none, ⟨[], true⟩)
    ∧ ListShift (⟨[], true⟩ : ListState α) 0 = (.ok none, ⟨[], true⟩)
    ∧ ListPop ⟨P ++ [w], true⟩ 0 = (.ok (some w), ⟨P, true⟩)
    ∧ ListShift ⟨v :: rest, true⟩ 0 = (.ok (some v), ⟨rest, true⟩)
    ∧ (ListPop ⟨P ++ [w], true⟩ 0).2.elems.length + 1 = (P ++ [w]).length
    ∧ (ListShift ⟨v :: rest, true⟩ 0).2.elems.length + 1 = (v :: rest).length := by
  refine ⟨ListPop_arity s k, ListShift_arity s k, rfl, rfl, rfl, rfl,
    ListPop_append P w, ListShift_cons v rest, ?_, ?_⟩
  · rw [ListPop_append]
    simp
  · rw [ListShift_cons]
    simp

/-- C5: `unshift` with values `v₀ … vₙ₋₁` inserts value `i` at position `i`,
leaving the values in their original order followed by the prior contents, and
returns the new size; a zero-argument call fails with `InvalidArgumentCount`;
in particular `unshift(x, y)` on `[a, b]` yields `[x, y, a, b]` and returns 4. -/
theorem unshift_spec (s : ListState α) (P : List α) (v : α) (vs : List α) (a b x y : α) :
    ListUnshift s [] = (.error .invalidArgumentCount, s)
    ∧ ListUnshift ⟨P, true⟩ (v :: vs)
        = (.ok ((v :: vs).length + P.length), ⟨(v :: vs) ++ P, true⟩)
    ∧ ListUnshift ⟨[a, b], true⟩ [x, y] = (.ok 4, ⟨[x, y, a, b], true⟩) := by
  have hgen : ∀ (Q : List α) (w : α) (ws : List α),
      ListUnshift ⟨Q, true⟩ (w :: ws)
        = (.ok ((w :: ws).length + Q.length), ⟨(w :: ws) ++ Q, true⟩) := by
    intro Q w ws
    unfold ListUnshift
    rw [if_neg (by simp)]
    have h := insertSeq_ok (w :: ws) ([] : List α) Q
    simp only [List.nil_append, List.length_nil] at h
    rw [h]
    dsimp only
    have hl : (w :: ws ++ Q).length = (w :: ws).length + Q.length := by
      simp only [List.length_append, List.length_cons]
    rw [hl]
  refine ⟨rfl, hgen P v vs, ?_⟩
  simpa using hgen [a, b] x [y]

/-- C6: `push` with a non-empty argument sequence appends each value in input
order — afterwards the element at `size_before + i` is argument `i` — and
returns the new size `size_before + n`; a zero-argument call fails with
`InvalidArgumentCount`. -/
theorem push_spec (s : ListState α) (P : List α) (v : α) (vs : List α) :
    ListPush s [] = (.error .invalidArgumentCount, s)
    ∧ ListPush ⟨P, true⟩ (v :: vs)
        = (.ok (P.length + (v :: vs).length), ⟨P ++ v :: vs, true⟩)
    ∧ (∀ i : Nat, ((ListPush ⟨P, true⟩ (v :: vs)).2.elems)[P.length + i]? = (v :: vs)[i]?) := by
  have hgen : ListPush ⟨P, true⟩ (v :: vs)
      = (.ok (P.length + (v :: vs).length), ⟨P ++ v :: vs, true⟩) := by
    unfold ListPush
    rw [if_neg (by simp), addAll_ok]
    simp
  refine ⟨rfl, hgen, ?_⟩
  intro i
  rw [hgen]
  show (P ++ v :: vs)[P.length + i]? = (v :: vs)[i]?
  rw [List.getElem?_append_right (Nat.le_add_right P.length i)]
  congr 1
  omega

/-- C7: property enumeration yields exactly the canonical decimal strings
`"0" … str(size-1)` in ascending order, recomputed from the current size at
each call, and reading `"length"` yields the number of enumerated index keys. -/
theorem enumeration_spec (s : ListState α) (i j : Nat) (s' : ListState α) :
    (ListPropertyNames s).length = s.elems.length
    ∧ (i < s.elems.length → (ListPropertyNames s)[i]? = some (natToKey i))
    ∧ (s.elems.length ≤ i → (ListPropertyNames s)[i]? = none)
    ∧ (i < j → j < s.elems.length →
        keyValue (natToKey i).data < keyValue (natToKey j).data)
    ∧ (s'.elems.length = s.elems.length → ListPropertyNames s' = ListPropertyNames s)
    ∧ ListGetProperty s "length" = .lengthVal (ListPropertyNames s).length := by
  refine ⟨by simp [ListPropertyNames], ?_, ?_, ?_, ?_, ?_⟩
  · intro hi
    simp [ListPropertyNames, List.getElem?_map, List.getElem?_range hi]
  · intro hi
    apply List.getElem?_eq_none
    simpa [ListPropertyNames] using hi
  · intro hij hj
    rw [keyValue_natToKey, keyValue_natToKey]
    exact hij
  · intro hlen
    unfold ListPropertyNames
    rw [hlen]
  · rw [show (ListPropertyNames s).length = s.elems.length by simp [ListPropertyNames]]
    rfl

/-- Witness for C7 on the two-element list `[10, 20]` with indices 0 and 1. -/
theorem enumeration_spec_witness :
    (0 : Nat) < (⟨[10, 20], true⟩ : ListState Nat).elems.length
    ∧ (0 : Nat) < 1
    ∧ (1 : Nat) < (⟨[10, 20], true⟩ : ListState Nat).elems.length
    ∧ (ListPropertyNames (⟨[10, 20], true⟩ : ListState Nat))[0]? = some (natToKey 0)
    ∧ keyValue (natToKey 0).data < keyValue (natToKey 1).data
    ∧ ((⟨[10, 20], false⟩ : ListState Nat).elems.length
          = (⟨[10, 20], true⟩ : ListState Nat).elems.length
        → ListPropertyNames (⟨[10, 20], false⟩ : ListState Nat)
            = ListPropertyNames (⟨[10, 20], true⟩ : ListState Nat)) :=
  ⟨by decide, by decide, by decide,
   (enumeration_spec (⟨[10, 20], true⟩ : ListState Nat) 0 1 ⟨[10, 20], false⟩).2.1 (by decide),
   (enumeration_spec (⟨[10, 20], true⟩ : ListState Nat) 0 1 ⟨[10, 20], false⟩).2.2.2.1
     (by decide) (by decide),
   (enumeration_spec (⟨[10, 20], true⟩ : ListState Nat) 0 1 ⟨[10, 20], false⟩).2.2.2.2.1⟩

/-- C8: reading the `"length"` property returns the current element count and
writing it always fails with the read-only error, the state unchanged. -/
theorem length_property_spec (s : ListState α) (v : α) :
    ListGetProperty s "length" = .lengthVal s.elems.length
    ∧ ListSetProperty s "length" v = (.err .readOnlyProperty, s) :=
  ⟨rfl, rfl⟩

/-- C9: `snapshot` requires zero arguments, failing with `InvalidArgumentCount`
otherwise, and returns a static view fixed to the list's query results at call
time: evaluating the view against any later store contents still yields the
membership at creation. -/
theorem snapshot_spec (s : ListState α) (k : Nat) (cur : List α) :
    ListStaticResults s (k + 1) = (.error .invalidArgumentCount, s)
    ∧ (ListStaticResults s 0).2 = s
    ∧ (∀ view : ViewHandle α,
        (ListStaticResults s 0).1 = .ok view → evalView view cur = s.elems) := by
  refine ⟨?_, rfl, ?_⟩
  · unfold ListStaticResults
    rw [if_pos (Nat.succ_ne_zero k)]
  · intro view hview
    have : view = RJSResultsCreate s.elems false := by
      simpa [ListStaticResults] using hview.symm
    rw [this]
    rfl

/-- Witness for C9: the snapshot of `[1, 2]` still evaluates to `[1, 2]`
against the later contents `[9]`. -/
theorem snapshot_spec_witness :
    (ListStaticResults (⟨[1, 2], true⟩ : ListState Nat) 0).1
        = .ok (RJSResultsCreate [1, 2] false)
    ∧ evalView (RJSResultsCreate [1, 2] false) [9] = [1, 2] :=
  ⟨rfl,
   (snapshot_spec (⟨[1, 2], true⟩ : ListState Nat) 0 [9]).2.2
     (RJSResultsCreate [1, 2] false) rfl⟩

/-- C10: whenever `pop` or `shift` returns an error — wrong arity, no active
write transaction, or a failing primitive — the list state is exactly as it was
before the call: the element read precedes the single removal and no
state-changing primitive precedes it. -/
theorem pop_shift_error_frame (s : ListState α) (argc : Nat) :
    ((ListPop s argc).1.isOk = false → (ListPop s argc).2 = s)
    ∧ ((ListShift s argc).1.isOk = false → (ListShift s argc).2 = s) :=
  ⟨ListPop_frame s argc, ListShift_frame s argc⟩

/-- Witness for C10: `pop` and `shift` on an empty list with no transaction
fail and leave the state unchanged. -/
theorem pop_shift_error_frame_witness :
    (ListPop (⟨[], false⟩ : ListState Nat) 0).1.isOk = false
    ∧ (ListPop (⟨[], false⟩ : ListState Nat) 0).2 = ⟨[], false⟩
    ∧ (ListShift (⟨[], false⟩ : ListState Nat) 0).1.isOk = false
    ∧ (ListShift (⟨[], false⟩ : ListState Nat) 0).2 = ⟨[], false⟩ :=
  ⟨by decide,
   (pop_shift_error_frame (⟨[], false⟩ : ListState Nat) 0).1 (by decide),
   by decide,
   (pop_shift_error_frame (⟨[], false⟩ : ListState Nat) 0).2 (by decide)⟩

end RealmJSList
